import Mathlib

/-!
Verification of the maya-usd export write job
(`lib/mayaUsd/fileio/jobs/writeJob.cpp`, class `UsdMaya_WriteJob`).

The C++ job orchestrates export of a Maya scene to a USD layer:
`Write` drives `_BeginWriting` (default-prim selection, root-overlap
validation, file-extension dispatch, package setup, DAG traversal with
name-clash checking, chaser instantiation and default export), then a
per-frame loop with cooperative cancellation, then `_FinishWriting`
(variants, post-export hooks, pruning, save, packaging, cleanup).

The embedding below is a shallow one: external collaborators (the Maya
scene graph, the USD persistence API, writer and chaser plugins) are
modelled as oracle parameters collected in the `Maya` structure, while
every control-flow decision made by `writeJob.cpp` itself is translated
directly from the source.  Observable actions are recorded as an `Event`
trace so that ordering and abort behaviour can be stated precisely.
-/

deriving instance DecidableEq for Except

namespace WriteJob

/-- A Maya DAG path, as the list of its path components. -/
abbrev DagPath := List String

/-- The `compatibility` export argument (`none` or `appleArKit` token);
`standard` stands for the `none` token. -/
inductive Compat where
  | standard
  | appleArKit
deriving DecidableEq

/-- The `renderLayerMode` export argument. -/
inductive RenderLayerMode where
  | currentLayer
  | defaultLayer
  | modelingVariant
deriving DecidableEq

/-- A node encountered during the DAG traversal for which
`CreatePrimWriter` produced a writer.  `valid` models the truthiness of
`primWriter->GetUsdPrim()`. -/
structure TravNode where
  usdPath : String
  dagPath : DagPath
  valid : Bool
deriving DecidableEq

/-- Immutable snapshot of the export job arguments
(`UsdMayaJobExportArgs`), restricted to the fields `writeJob.cpp`
reads. -/
structure ExportArgs where
  legacyMaterialScope : Bool
  defaultPrim : String
  rootPrim : Option String
  exportRoots : List String
  dagPaths : List DagPath
  stripNamespaces : Bool
  mergeTransformAndShape : Bool
  renderLayerMode : RenderLayerMode
  rootMapFunctionNull : Bool
  compatibility : Compat
  timeSamples : List Nat
deriving DecidableEq

/-- Oracle bundle for all external collaborators: the Maya scene
(ancestor tests, shape extension, scene queries), filesystem and layer
identification helpers, plugin writers and chasers, the progress-bar
interrupt flag, and the results of external steps with opaque
implementations. -/
structure Maya where
  isAncestorDescendent : DagPath → DagPath → Bool
  extendToShape : DagPath → DagPath
  sceneQueryCandidates : List String
  mayaNodeNameToPrimName : String → String
  isAnonymousLayerIdentifier : String → Bool
  getExtension : String → String
  makeTmpStageName : String → String
  pathExists : String → Bool
  renderLayerCount : Nat
  openFileOk : Bool
  travNodes : List TravNode
  postProcessOk : Bool
  modelKindOk : Bool
  createdChasers : List String
  chaserDefaultOk : String → Bool
  chaserFrameOk : String → Nat → Bool
  chaserPostOk : String → Bool
  chaserExtraPaths : String → List String
  interrupt : Nat → Bool
  permissionToSave : Bool
  packageOk : Bool
  hasRootPrim : Bool
  initialFiles : List String

/-- Observable actions of the job, in execution order. -/
inductive Event where
  | openedLayer
  | wrotePrimDefault (path : String)
  | writerFrameWrite (path : String) (t : Nat)
  | chaserExportDefault (name : String)
  | chaserExportFrame (name : String) (t : Nat)
  | perFrameCallback (t : Nat)
  | interruptCheck (framesDone : Nat)
  | wroteVariants
  | writerPostExport (path : String)
  | chaserPostExport (name : String)
  | postCallback
  | prunedEmpties
  | savedLayer (file : String)
  | createdPackage (pkg : String) (ok : Bool)
  | releasedHandles
  | deletedTmpFile (file : String)
deriving DecidableEq

/-- The distinct fatal-error exits of `_BeginWriting` (each is a
`return false` in the source, annotated with the reported detail). -/
inductive BeginError where
  | overlappingRoots (p1 p2 : DagPath)
  | appendToPackage
  | tmpStageExists (tmp : String)
  | rootsWithModelingVariant
  | openFileFailed
  | nameClash (other self : DagPath)
  | rootsNotInSelection
  | postProcessFailed
  | modelKindFailed
  | chaserDefaultFailed (name : String)
deriving DecidableEq

/-- Job state accumulated by `_BeginWriting` and consumed by the frame
loop and `_FinishWriting` (`_fileName`, `_packageName`, the writer and
chaser lists, and the two path maps). -/
structure JobState where
  fileName : String
  packageName : String
  defaultPrimArg : String
  usdModelRootOverride : Bool
  writers : List TravNode
  chasers : List String
  clashMap : List (String × DagPath)
  dagToUsdMap : List (DagPath × String)
deriving DecidableEq

/-- `_GetFallbackExtension`: ARKit-compatible exports default to the
package extension, everything else to the default extension. -/
def fallbackExtension : Compat → String
  | .appleArKit => "usdz"
  | .standard => "usd"

/-- `GetExportDefaultPrimCandidates`: an explicit root prim wins; else
the non-empty entries of the export-roots list, if any; else the
external scene query (a Python helper in the source). -/
def getExportDefaultPrimCandidates (args : ExportArgs) (o : Maya) : List String :=
  match args.rootPrim with
  | some name => [name]
  | none =>
    if args.exportRoots.length > 0 then
      let roots := args.exportRoots.filter (fun r => r ≠ "")
      if roots.length > 0 then roots else o.sceneQueryCandidates
    else o.sceneQueryCandidates

/-- The default-prim selection at the top of `_BeginWriting`: when not
using the legacy material scope and no default prim was configured, the
first candidate (if any) becomes the default prim. -/
def chooseDefaultPrim (legacy : Bool) (dp : String) (cands : List String) : String :=
  if legacy = false ∧ dp = "" then
    match cands with
    | [] => dp
    | c :: _ => c
  else dp

/-- The value `mJobCtx.mArgs.defaultPrim` holds after the selection and
name normalization at the top of `_BeginWriting`. -/
def beginDefaultPrim (args : ExportArgs) (o : Maya) : String :=
  let dp0 := chooseDefaultPrim args.legacyMaterialScope args.defaultPrim
    (getExportDefaultPrimCandidates args o)
  if dp0 ≠ "" then o.mayaNodeNameToPrimName dp0 else dp0

/-- The pairwise ancestor/descendant scan over the configured DAG paths
(the double loop at the top of `_BeginWriting`); returns the first
conflicting pair found, in loop order. -/
def findOverlap (rel : DagPath → DagPath → Bool) : List DagPath → Option (DagPath × DagPath)
  | [] => none
  | p :: rest =>
    match rest.find? (fun q => rel p q) with
    | some q => some (p, q)
    | none => findOverlap rel rest

/-- Extension dispatch: an anonymous identifier or a recognized USD
extension is used as-is, otherwise the fallback extension for the
compatibility profile is appended.  Returns (extension, file name). -/
def resolveExtension (compat : Compat) (o : Maya) (fileName : String) : String × String :=
  let fileExt := o.getExtension fileName
  if o.isAnonymousLayerIdentifier fileName
      || fileExt == "usd" || fileExt == "usda" || fileExt == "usdc" || fileExt == "usdz" then
    (fileExt, fileName)
  else
    let fb := fallbackExtension compat
    (fb, fileName ++ "." ++ fb)

/-- Package setup: a package destination rejects append mode, writes to
a fresh temporary stage file and records the package name; any other
destination is written directly.  Returns (`_fileName`,
`_packageName`). -/
def setupPackage (o : Maya) (fileExt fileNameWithExt : String) (append : Bool) :
    Except BeginError (String × String) :=
  if fileExt == "usdz" then
    if append then
      .error .appendToPackage
    else
      let tmp := o.makeTmpStageName fileNameWithExt
      if o.pathExists tmp then .error (.tmpStageExists tmp)
      else .ok (tmp, fileNameWithExt)
  else
    .ok (fileNameWithExt, "")

/-- `_CheckNameClashes`: inactive unless namespaces are stripped; on a
repeated USD path the clash is tolerated only when transform/shape
merging is on and both DAG paths extend to the same shape, otherwise
the pair of conflicting DAG paths is reported as a fatal error. -/
def checkNameClashes (strip merge : Bool) (ext : DagPath → DagPath)
    (m : List (String × DagPath)) (path : String) (dagPath : DagPath) :
    Except (DagPath × DagPath) (List (String × DagPath)) :=
  if strip = false then
    .ok m
  else
    match m.find? (fun e => e.1 == path) with
    | some e =>
      if merge = true ∧ ext e.2 = ext dagPath then .ok m
      else .error (e.2, dagPath)
    | none => .ok (m ++ [(path, dagPath)])

/-- The traversal loop body of `_BeginWriting` restricted to the nodes
that produced a prim writer: for a writer with a valid USD prim the
name-clash check runs first (failure aborts the job), then the
default-time write happens and the DAG-to-USD mapping is extended. -/
def traverseCheck (strip merge : Bool) (ext : DagPath → DagPath) :
    List TravNode → List (String × DagPath) → List (DagPath × String) →
    List Event × Except (DagPath × DagPath) (List (String × DagPath) × List (DagPath × String))
  | [], m, dm => ([], .ok (m, dm))
  | n :: rest, m, dm =>
    if n.valid then
      match checkNameClashes strip merge ext m n.usdPath n.dagPath with
      | .error e => ([], .error e)
      | .ok m' =>
        let (ev, r) := traverseCheck strip merge ext rest m' (dm ++ [(n.dagPath, n.usdPath)])
        (.wrotePrimDefault n.usdPath :: ev, r)
    else
      traverseCheck strip merge ext rest m dm

/-- The chaser `ExportDefault` loop at the end of `_BeginWriting`; the
first failing chaser aborts. -/
def chaserDefaults (o : Maya) : List String → List Event × Option String
  | [] => ([], none)
  | c :: rest =>
    if o.chaserDefaultOk c then
      let (ev, r) := chaserDefaults o rest
      (.chaserExportDefault c :: ev, r)
    else
      ([.chaserExportDefault c], some c)

/-- `_BeginWriting`, in source order: default-prim selection, the
root-overlap validation, extension dispatch, package setup, the
modeling-variant/export-roots exclusion, opening the layer, the DAG
traversal with name-clash checks and default-time writes, the
export-roots intersection check, post-processing and model-kind
assignment, and the chaser default exports. -/
def beginWriting (args : ExportArgs) (o : Maya) (fileName : String) (append : Bool) :
    List Event × Except BeginError JobState :=
  match findOverlap o.isAncestorDescendent args.dagPaths with
  | some (p1, p2) => ([], .error (.overlappingRoots p1 p2))
  | none =>
    match setupPackage o (resolveExtension args.compatibility o fileName).1
        (resolveExtension args.compatibility o fileName).2 append with
    | .error e => ([], .error e)
    | .ok (fn, pkg) =>
      if args.renderLayerMode = .modelingVariant ∧ o.renderLayerCount > 1
          ∧ args.rootMapFunctionNull = false then
        ([], .error .rootsWithModelingVariant)
      else if o.openFileOk = false then
        ([], .error .openFileFailed)
      else
        match traverseCheck args.stripNamespaces args.mergeTransformAndShape
            o.extendToShape o.travNodes [] [] with
        | (evT, .error e) => (Event.openedLayer :: evT, .error (.nameClash e.1 e.2))
        | (evT, .ok (m, dm)) =>
          if args.rootMapFunctionNull = false ∧ dm = [] then
            (Event.openedLayer :: evT, .error .rootsNotInSelection)
          else if o.postProcessOk = false then
            (Event.openedLayer :: evT, .error .postProcessFailed)
          else if o.modelKindOk = false then
            (Event.openedLayer :: evT, .error .modelKindFailed)
          else
            match chaserDefaults o o.createdChasers with
            | (evC, some bad) =>
              (Event.openedLayer :: evT ++ evC, .error (.chaserDefaultFailed bad))
            | (evC, none) =>
              (Event.openedLayer :: evT ++ evC,
               .ok ⟨fn, pkg, beginDefaultPrim args o,
                    decide (args.renderLayerMode = RenderLayerMode.modelingVariant
                      ∧ o.renderLayerCount > 1),
                    o.travNodes, o.createdChasers, m, dm⟩)

/-- The chaser `ExportFrame` loop of `_WriteFrame`; the first failing
chaser aborts the frame (the hook that failed did run). -/
def chaserFrames (o : Maya) : List String → Nat → List Event × Bool
  | [], _ => ([], true)
  | c :: rest, t =>
    if o.chaserFrameOk c t then
      let (ev, b) := chaserFrames o rest t
      (.chaserExportFrame c t :: ev, b)
    else
      ([.chaserExportFrame c t], false)

/-- `_WriteFrame`: every recorded writer with a valid USD prim writes
its sample for the frame, then the chaser per-frame hooks run in order;
only when all chasers succeed does the per-frame callback fire. -/
def writeFrame (o : Maya) (st : JobState) (t : Nat) : List Event × Bool :=
  let wEv := st.writers.filterMap
    (fun w => if w.valid then some (Event.writerFrameWrite w.usdPath t) else none)
  match chaserFrames o st.chasers t with
  | (cEv, false) => (wEv ++ cEv, false)
  | (cEv, true) => (wEv ++ cEv ++ [.perFrameCallback t], true)

/-- The time-sample loop of `Write`: each frame is written in full,
then the interrupt flag is polled (a requested interrupt ends the loop
normally); a failing frame aborts with failure.  `k0` counts the frames
already completed. -/
def frameLoop (o : Maya) (st : JobState) : List Nat → Nat → List Event × Bool
  | [], _ => ([], true)
  | t :: rest, k0 =>
    let (evF, ok) := writeFrame o st t
    if ok = false then
      (evF, false)
    else if o.interrupt (k0 + 1) then
      (evF ++ [.interruptCheck (k0 + 1)], true)
    else
      let (ev, b) := frameLoop o st rest (k0 + 1)
      (evF ++ Event.interruptCheck (k0 + 1) :: ev, b)

/-- The chaser `PostExport` loop of `_FinishWriting`: a failing chaser
aborts; each successful chaser contributes its extra prim paths. -/
def chaserPosts (o : Maya) : List String → List Event × List String × Option String
  | [] => ([], [], none)
  | c :: rest =>
    if o.chaserPostOk c then
      let (ev, ex, r) := chaserPosts o rest
      (.chaserPostExport c :: ev, o.chaserExtraPaths c ++ ex, r)
    else
      ([.chaserPostExport c], [], some c)

/-- `_FinishWriting`: variants (when applicable), writer post-export
hooks, chaser post-export hooks (failure aborts), the post callback,
pruning, saving the root layer when permitted, packaging (whose failure
is only reported), releasing all writer/stage handles, and finally
deleting the temporary stage file in the package case.  `files` models
the relevant part of the filesystem as a list of file names. -/
def finishWriting (o : Maya) (st : JobState) (files : List String) :
    List Event × List String × Bool :=
  let evVar :=
    if o.hasRootPrim ∧ o.renderLayerCount > 1 ∧ st.usdModelRootOverride then
      [Event.wroteVariants]
    else []
  let evPost := st.writers.map (fun w => Event.writerPostExport w.usdPath)
  match chaserPosts o st.chasers with
  | (evC, _, some _) => (evVar ++ evPost ++ evC, files, false)
  | (evC, _, none) =>
    let ev1 := evVar ++ evPost ++ evC ++ [Event.postCallback, Event.prunedEmpties]
    let (evSave, files1) :=
      if o.permissionToSave then ([Event.savedLayer st.fileName], st.fileName :: files)
      else ([], files)
    let (evPkg, files2) :=
      if st.packageName ≠ "" then
        ([Event.createdPackage st.packageName o.packageOk],
         if o.packageOk then st.packageName :: files1 else files1)
      else ([], files1)
    let (evDel, files3) :=
      if st.packageName ≠ "" then
        ([Event.deletedTmpFile st.fileName], files2.filter (fun f => f ≠ st.fileName))
      else ([], files2)
    (ev1 ++ evSave ++ evPkg ++ Event.releasedHandles :: evDel, files3, true)

/-- `Write`, the single entry point: `_BeginWriting`, then the frame
loop over the configured time samples, then `_FinishWriting`.  Failure
anywhere yields an overall failure; an interrupt merely ends the frame
loop early. -/
def write (args : ExportArgs) (o : Maya) (fileName : String) (append : Bool) :
    List Event × Bool :=
  match beginWriting args o fileName append with
  | (ev, .error _) => (ev, false)
  | (ev, .ok st) =>
    match frameLoop o st args.timeSamples 0 with
    | (evF, false) => (ev ++ evF, false)
    | (evF, true) =>
      (ev ++ evF ++ (finishWriting o st o.initialFiles).1,
       (finishWriting o st o.initialFiles).2.2)

/-! ### `_WriteVariants` (modeling-variant construction)

Only the variant bookkeeping visible to the default-selection claim is
modelled: which variants are added to the `modelingVariant` variant
set, the running variant selection, and the recorded default modeling
variant.  The per-variant edit-target authoring (prim deactivation) is
an external stage mutation and is not modelled. -/

/-- One Maya render layer as seen by `_WriteVariants`: its name,
whether it is the Maya default render layer, and whether its member set
maps to a non-empty table of active USD paths. -/
structure RenderLayer where
  name : String
  isDefault : Bool
  hasActivePaths : Bool
deriving DecidableEq

/-- The variant bookkeeping state of `_WriteVariants`. -/
structure VariantState where
  variantsAdded : List String
  selection : Option String
  defaultModelingVariant : String
deriving DecidableEq

/-- One iteration of the render-layer loop in `_WriteVariants`: the
default render layer's name is recorded as the default modeling
variant; a layer with active paths adds (and temporarily selects) a
variant named after it. -/
def writeVariantsStep (st : VariantState) (l : RenderLayer) : VariantState :=
  let dmv := if l.isDefault then l.name else st.defaultModelingVariant
  if l.hasActivePaths then
    { variantsAdded := st.variantsAdded ++ [l.name]
      selection := some l.name
      defaultModelingVariant := dmv }
  else
    { st with defaultModelingVariant := dmv }

/-- The variant selection produced by `_WriteVariants`: after all
render layers are processed, the default modeling variant is selected,
provided the variant set exists (at least one variant was added). -/
def writeVariants (layers : List RenderLayer) : VariantState :=
  let st := layers.foldl writeVariantsStep ⟨[], none, ""⟩
  if st.variantsAdded.isEmpty then st
  else { st with selection := some st.defaultModelingVariant }

/-! ### `_PruneEmpties` (empty-container pruning)

The USD stage is modelled as a list of prims, each with its absolute
path (as a component list), type name, and authored-payload/reference
flags.  Children are derived from paths.  `UsdStage::RemovePrim`
removes the prim's whole subtree. -/

/-- A prim path in the output namespace, as its component list (the
empty list is the pseudo-root / the empty `SdfPath`). -/
abbrev PrimPath := List String

/-- A prim of the modelled stage. -/
structure PrimInfo where
  path : PrimPath
  typeName : String
  hasPayloads : Bool
  hasRefs : Bool
deriving DecidableEq

/-- The modelled USD stage: its prims, in traversal order. -/
abbrev Stage := List PrimInfo

/-- Whether some prim of the stage is a direct child of `p`. -/
def hasChildIn (stage : Stage) (p : PrimPath) : Bool :=
  stage.any (fun q => !q.path.isEmpty && q.path.dropLast == p)

/-- `isEmptyPrim`: a valid prim of plain container type (`Xform` or
`Scope`) with no children and no authored payloads or references. -/
def isEmptyPrim (stage : Stage) (p : PrimPath) : Bool :=
  match stage.find? (fun pi => pi.path == p) with
  | none => false
  | some pi =>
    ((pi.typeName == "Xform") || (pi.typeName == "Scope"))
      && !hasChildIn stage p && !pi.hasPayloads && !pi.hasRefs

/-- `UsdStage::RemovePrim` for every path in the list: each removal
drops the prim and its subtree. -/
def removePrims (stage : Stage) (toRemove : List PrimPath) : Stage :=
  stage.filter (fun pi => !toRemove.any (fun p => p.isPrefixOf pi.path))

/-- The fixed-point loop of `_PruneEmpties`: remove the collected empty
prims, re-check each removed prim's parent, and repeat until a pass
removes nothing.  Every element of `toRemove` passed an `isEmptyPrim`
check, so each pass removes at least one prim and `stage.length + 1`
fuel is enough for any run starting from the initial scan. -/
def pruneLoop (dp : PrimPath) : Nat → Stage → List PrimPath → Stage
  | 0, stage, _ => stage
  | fuel + 1, stage, toRemove =>
    if toRemove.isEmpty then stage
    else
      let stage' := removePrims stage toRemove
      let toRecheck := toRemove.map List.dropLast
      let toRemove' := toRecheck.filter (fun p => decide (dp ≠ p) && isEmptyPrim stage' p)
      pruneLoop dp fuel stage' toRemove'

/-- `_PruneEmpties`: disabled when empty transforms are kept; otherwise
an initial scan collects every empty prim other than the default prim,
and the fixed-point loop removes them, re-checking parents.  `dp` is
the default prim path. -/
def pruneEmpties (includeEmptyTransforms : Bool) (dp : PrimPath) (stage : Stage) : Stage :=
  if includeEmptyTransforms then stage
  else
    let toRemove := (stage.map (fun pi => pi.path)).filter
      (fun p => decide (dp ≠ p) && isEmptyPrim stage p)
    pruneLoop dp (stage.length + 1) stage toRemove

/-- The chain of `n` nested container prims used by the pruning claim:
the non-empty prefixes of `names`. -/
def chainPaths (names : List String) : List PrimPath :=
  (List.range names.length).map (fun i => names.take (i + 1))

/-- An `Xform`-typed prim with no authored payloads or references. -/
def xformPrim (p : PrimPath) : PrimInfo := ⟨p, "Xform", false, false⟩

/-- The stage consisting of exactly a chain of nested empty
transforms. -/
def chainStage (names : List String) : Stage := (chainPaths names).map xformPrim

/-! ### Expected frame-loop traces

Helper descriptions of the event trace the frame loop produces in
specific scenarios, used to state the per-frame claims exactly. -/

/-- The writer sample events of one frame: one per recorded writer
whose USD prim is valid. -/
def frameWriterEvents (writers : List TravNode) (t : Nat) : List Event :=
  writers.filterMap
    (fun w => if w.valid then some (Event.writerFrameWrite w.usdPath t) else none)

/-- The chaser per-frame events for the given chasers, in order. -/
def chaserFrameEvents (chasers : List String) (t : Nat) : List Event :=
  chasers.map (fun c => Event.chaserExportFrame c t)

/-- The full event block of one successful frame: writer samples, all
chaser hooks, then the per-frame callback. -/
def fullFrameEvents (st : JobState) (t : Nat) : List Event :=
  frameWriterEvents st.writers t ++ chaserFrameEvents st.chasers t
    ++ [Event.perFrameCallback t]

/-- The trace of an uninterrupted, fully successful frame loop over
`ts`, starting with `k0` frames already completed: complete frame
blocks separated by interrupt checks. -/
def cleanLoopEvents (st : JobState) : List Nat → Nat → List Event
  | [], _ => []
  | t :: rest, k0 =>
    fullFrameEvents st t ++ Event.interruptCheck (k0 + 1) :: cleanLoopEvents st rest (k0 + 1)

/-! ### Concrete fixtures

A small concrete oracle and argument set on which the theorems below
are instantiated. -/

/-- A concrete oracle for witnesses: a two-node scene, one chaser, all
external steps succeeding. -/
def tMaya : Maya where
  isAncestorDescendent := fun _ _ => false
  extendToShape := fun p => p ++ ["Shape"]
  sceneQueryCandidates := ["sceneRoot"]
  mayaNodeNameToPrimName := fun s => s
  isAnonymousLayerIdentifier := fun _ => false
  getExtension := fun s => if s = "f.usd" then "usd" else ""
  makeTmpStageName := fun _ => "tmp-1.usdc"
  pathExists := fun _ => false
  renderLayerCount := 1
  openFileOk := true
  travNodes := [⟨"/A", ["A"], true⟩, ⟨"/A/B", ["A", "B"], true⟩]
  postProcessOk := true
  modelKindOk := true
  createdChasers := ["ch"]
  chaserDefaultOk := fun _ => true
  chaserFrameOk := fun _ _ => true
  chaserPostOk := fun _ => true
  chaserExtraPaths := fun _ => ["/Extra"]
  interrupt := fun _ => false
  permissionToSave := true
  packageOk := true
  hasRootPrim := true
  initialFiles := []

/-- Concrete export arguments for witnesses: a plain three-frame
animated export. -/
def tArgs : ExportArgs where
  legacyMaterialScope := false
  defaultPrim := ""
  rootPrim := none
  exportRoots := []
  dagPaths := []
  stripNamespaces := false
  mergeTransformAndShape := true
  renderLayerMode := .defaultLayer
  rootMapFunctionNull := true
  compatibility := .standard
  timeSamples := [10, 20, 30]

def oC3' : Maya :=
  { tMaya with travNodes := [], chaserFrameOk := fun _ t => decide (t ≠ 20) }

def stC3' : JobState := ⟨"f.usd", "", "sceneRoot", false, [], ["ch"], [], []⟩

def oC4' : Maya := { tMaya with interrupt := fun j => decide (2 ≤ j) }

def stC4' : JobState :=
  ⟨"f.usd", "", "sceneRoot", false, [⟨"/A", ["A"], true⟩, ⟨"/A/B", ["A", "B"], true⟩],
   ["ch"], [], [(["A"], "/A"), (["A", "B"], "/A/B")]⟩

lemma findOverlap_eq_none_iff (rel : DagPath → DagPath → Bool) (l : List DagPath) :
    findOverlap rel l = none ↔ l.Pairwise (fun a b => rel a b = false) := by
  induction l with
  | nil => simp [findOverlap]
  | cons p rest ih =>
    cases hf : rest.find? (fun q => rel p q) with
    | some q =>
      simp only [findOverlap, hf]
      constructor
      · intro h; cases h
      · intro h
        have hq := List.find?_some hf
        have hqm := List.mem_of_find?_eq_some hf
        rw [List.pairwise_cons] at h
        have := h.1 q hqm
        rw [this] at hq
        cases hq
    | none =>
      simp only [findOverlap, hf]
      rw [List.pairwise_cons, ← ih]
      have hall := List.find?_eq_none.mp hf
      constructor
      · intro h
        exact ⟨fun q hq => by simpa using hall q hq, h⟩
      · intro h; exact h.2

lemma findOverlap_eq_some (rel : DagPath → DagPath → Bool) (l : List DagPath)
    (p q : DagPath) (h : findOverlap rel l = some (p, q)) :
    p ∈ l ∧ q ∈ l ∧ rel p q = true := by
  induction l with
  | nil => simp [findOverlap] at h
  | cons a rest ih =>
    cases hf : rest.find? (fun x => rel a x) with
    | some b =>
      simp only [findOverlap, hf, Option.some.injEq, Prod.mk.injEq] at h
      obtain ⟨h1, h2⟩ := h
      subst h1; subst h2
      exact ⟨List.mem_cons_self _ _,
        List.mem_cons_of_mem _ (List.mem_of_find?_eq_some hf), List.find?_some hf⟩
    | none =>
      simp only [findOverlap, hf] at h
      obtain ⟨h1, h2, h3⟩ := ih h
      exact ⟨List.mem_cons_of_mem _ h1, List.mem_cons_of_mem _ h2, h3⟩

/-- Claim C1: when two of the configured export root DAG paths are in an
ancestor/descendant relationship, the begin step reports the conflicting
pair (both paths identified in the error) and `Write` returns failure
with an empty event trace — the destination layer was never opened and
no output entity was created. -/
theorem overlappingRoots_abort (args : ExportArgs) (o : Maya) (fileName : String)
    (append : Bool) (i j : Fin args.dagPaths.length) (hij : i < j)
    (hrel : o.isAncestorDescendent (args.dagPaths.get i) (args.dagPaths.get j) = true) :
    (∃ p1 p2, (beginWriting args o fileName append).2
        = .error (.overlappingRoots p1 p2)
      ∧ p1 ∈ args.dagPaths ∧ p2 ∈ args.dagPaths
      ∧ o.isAncestorDescendent p1 p2 = true)
    ∧ write args o fileName append = ([], false) := by
  have hne : findOverlap o.isAncestorDescendent args.dagPaths ≠ none := by
    intro h
    have hp := (findOverlap_eq_none_iff _ _).mp h
    rw [List.pairwise_iff_get] at hp
    have := hp i j hij
    rw [hrel] at this
    cases this
  cases hfind : findOverlap o.isAncestorDescendent args.dagPaths with
  | none => exact absurd hfind hne
  | some pq =>
    obtain ⟨p1, p2⟩ := pq
    obtain ⟨h1, h2, h3⟩ := findOverlap_eq_some _ _ _ _ hfind
    refine ⟨⟨p1, p2, ?_, h1, h2, h3⟩, ?_⟩
    · simp [beginWriting, hfind]
    · simp [write, beginWriting, hfind]

/-- Claim C10: when the render-layer mode is modeling-variant, more than
one render layer exists and an export-root remapping function is
configured, `_BeginWriting` fails with a dedicated error and `Write`
returns failure with an empty trace — the output layer is never opened,
so export-root remapping and modeling-variant export are mutually
exclusive in that situation. -/
theorem modelingVariant_rootMap_abort (args : ExportArgs) (o : Maya) (fileName : String)
    (append : Bool) (fn pkg : String)
    (hov : findOverlap o.isAncestorDescendent args.dagPaths = none)
    (hsetup : setupPackage o (resolveExtension args.compatibility o fileName).1
        (resolveExtension args.compatibility o fileName).2 append = .ok (fn, pkg))
    (hmode : args.renderLayerMode = .modelingVariant)
    (hcount : 1 < o.renderLayerCount)
    (hmap : args.rootMapFunctionNull = false) :
    (beginWriting args o fileName append).2 = .error .rootsWithModelingVariant
    ∧ write args o fileName append = ([], false) := by
  constructor
  · simp [beginWriting, hov, hsetup, hmode, hcount, hmap]
  · simp [write, beginWriting, hov, hsetup, hmode, hcount, hmap]

/-- Claim C9: with no explicit root prim, empty entries of the
export-roots list are skipped — when at least one entry is non-empty
the candidate list is exactly the non-empty entries in order and the
default-prim selection picks the first of them; when all entries are
empty, candidate derivation falls through to the external scene
query. -/
theorem exportRoots_empty_entries (args : ExportArgs) (o : Maya)
    (hroot : args.rootPrim = none) :
    ((∃ r ∈ args.exportRoots, r ≠ "") →
      getExportDefaultPrimCandidates args o = args.exportRoots.filter (fun r => r ≠ ""))
    ∧ ((∃ r ∈ args.exportRoots, r ≠ "") → args.legacyMaterialScope = false →
      args.defaultPrim = "" →
      chooseDefaultPrim args.legacyMaterialScope args.defaultPrim
          (getExportDefaultPrimCandidates args o)
        = (args.exportRoots.filter (fun r => r ≠ "")).headD "")
    ∧ (args.exportRoots ≠ [] → (∀ r ∈ args.exportRoots, r = "") →
      getExportDefaultPrimCandidates args o = o.sceneQueryCandidates) := by
  have main : (∃ r ∈ args.exportRoots, r ≠ "") →
      getExportDefaultPrimCandidates args o = args.exportRoots.filter (fun r => r ≠ "") := by
    rintro ⟨r, hr, hrne⟩
    have hne : args.exportRoots ≠ [] := by
      intro h; rw [h] at hr; cases hr
    have hlen : 0 < args.exportRoots.length := List.length_pos.mpr hne
    simp [getExportDefaultPrimCandidates, hroot, hlen]
    intro hall
    exact absurd (hall r hr) hrne
  refine ⟨main, ?_, ?_⟩
  · rintro hex hleg hdp
    obtain ⟨r, hr, hrne⟩ := hex
    rw [main ⟨r, hr, hrne⟩]
    have hmem : r ∈ args.exportRoots.filter (fun r => r ≠ "") :=
      List.mem_filter.mpr ⟨hr, by simpa using hrne⟩
    have hfne : args.exportRoots.filter (fun r => r ≠ "") ≠ [] := by
      intro h; rw [h] at hmem; cases hmem
    obtain ⟨c, cs, hcons⟩ := List.exists_cons_of_ne_nil hfne
    rw [hcons]
    simp [chooseDefaultPrim, hleg, hdp]
  · intro hne hall
    have hlen : 0 < args.exportRoots.length := List.length_pos.mpr hne
    have hfe : args.exportRoots.filter (fun r => !decide (r = "")) = [] :=
      List.filter_eq_nil_iff.mpr (fun a ha => by simpa using hall a ha)
    simp [getExportDefaultPrimCandidates, hroot, hlen, hfe]

/-- Claim C7: a destination file name without a recognized USD extension
(anonymous layer identifiers denote in-memory layers, not files, and
are excluded) gets the fallback extension of the compatibility profile
appended — the package extension for the ARKit profile, the default
extension for every other profile; whenever the resolved extension is
the package format, append mode is rejected as a fatal error before the
layer is opened, and otherwise writing goes to the fresh temporary
stage file while the package name is recorded separately. -/
theorem extension_dispatch (o : Maya) (fileName : String)
    (hanon : o.isAnonymousLayerIdentifier fileName = false)
    (hext : o.getExtension fileName ∉ (["usd", "usda", "usdc", "usdz"] : List String)) :
    (∀ compat, resolveExtension compat o fileName
      = (fallbackExtension compat, fileName ++ "." ++ fallbackExtension compat))
    ∧ fallbackExtension .appleArKit = "usdz"
    ∧ (∀ compat, compat ≠ .appleArKit → fallbackExtension compat = "usd")
    ∧ (∀ fwe, setupPackage o "usdz" fwe true = .error .appendToPackage)
    ∧ (∀ fwe, o.pathExists (o.makeTmpStageName fwe) = false →
        setupPackage o "usdz" fwe false = .ok (o.makeTmpStageName fwe, fwe))
    ∧ (∀ args, findOverlap o.isAncestorDescendent args.dagPaths = none →
        (resolveExtension args.compatibility o fileName).1 = "usdz" →
        (beginWriting args o fileName true).2 = .error .appendToPackage) := by
  simp only [List.mem_cons, List.mem_singleton, not_or] at hext
  obtain ⟨h1, h2, h3, h4⟩ := hext
  refine ⟨?_, rfl, ?_, ?_, ?_, ?_⟩
  · intro compat
    simp [resolveExtension, hanon, h1, h2, h3, h4]
  · intro compat hc
    cases compat with
    | standard => rfl
    | appleArKit => exact absurd rfl hc
  · intro fwe
    simp [setupPackage]
  · intro fwe hex2
    simp [setupPackage, hex2]
  · intro args hov hres
    have hset : setupPackage o (resolveExtension args.compatibility o fileName).1
        (resolveExtension args.compatibility o fileName).2 true = .error .appendToPackage := by
      rw [hres]; simp [setupPackage]
    simp [beginWriting, hov, hset]

/-- Claim C2: the name-clash check always allows when namespace
stripping is disabled; on a repeated output path it allows exactly when
transform/shape merging is enabled and both DAG paths extend to the
same shape, and otherwise reports the two conflicting source nodes;
when the traversal check rejects, `_BeginWriting` fails with that pair
and the whole job fails. -/
theorem nameClash_policy :
    (∀ (merge : Bool) (ext : DagPath → DagPath) m path d,
      checkNameClashes false merge ext m path d = .ok m)
    ∧ (∀ (merge : Bool) (ext : DagPath → DagPath) m path d e,
        m.find? (fun x => x.1 == path) = some e →
        ((checkNameClashes true merge ext m path d = .ok m
            ↔ merge = true ∧ ext e.2 = ext d)
         ∧ (¬(merge = true ∧ ext e.2 = ext d) →
            checkNameClashes true merge ext m path d = .error (e.2, d))))
    ∧ (∀ (args : ExportArgs) (o : Maya) (fileName : String) (append : Bool) evT oth slf,
        findOverlap o.isAncestorDescendent args.dagPaths = none →
        (∃ fn pkg, setupPackage o (resolveExtension args.compatibility o fileName).1
            (resolveExtension args.compatibility o fileName).2 append = .ok (fn, pkg)) →
        ¬(args.renderLayerMode = .modelingVariant ∧ 1 < o.renderLayerCount
            ∧ args.rootMapFunctionNull = false) →
        o.openFileOk = true →
        traverseCheck args.stripNamespaces args.mergeTransformAndShape o.extendToShape
            o.travNodes [] [] = (evT, .error (oth, slf)) →
        (beginWriting args o fileName append).2 = .error (.nameClash oth slf)
        ∧ (write args o fileName append).2 = false) := by
  refine ⟨?_, ?_, ?_⟩
  · intro merge ext m path d
    simp [checkNameClashes]
  · intro merge ext m path d e hfind
    by_cases hcond : merge = true ∧ ext e.2 = ext d
    · constructor
      · simp [checkNameClashes, hfind, hcond]
      · intro hn; exact absurd hcond hn
    · constructor
      · simp [checkNameClashes, hfind, hcond]
      · intro _; simp [checkNameClashes, hfind, hcond]
  · intro args o fileName append evT oth slf hov hsetup hmv hopen htrav
    obtain ⟨fn, pkg, hset⟩ := hsetup
    constructor
    · simp [beginWriting, hov, hset, hmv, hopen, htrav]
    · simp [write, beginWriting, hov, hset, hmv, hopen, htrav]

lemma foldl_variants_dmv_of_no_default (layers : List RenderLayer) :
    ∀ st : VariantState, (∀ l ∈ layers, l.isDefault = false) →
    (layers.foldl writeVariantsStep st).defaultModelingVariant
      = st.defaultModelingVariant := by
  induction layers with
  | nil => intro st _; rfl
  | cons l rest ih =>
    intro st h
    have hl : l.isDefault = false := h l (List.mem_cons_self _ _)
    rw [List.foldl_cons, ih _ (fun x hx => h x (List.mem_cons_of_mem _ hx))]
    simp [writeVariantsStep, hl]
    split <;> rfl

lemma foldl_variants_dmv (layers : List RenderLayer) (B : String) :
    ∀ st : VariantState, (∀ l ∈ layers, l.isDefault = true → l.name = B) →
    (∃ l ∈ layers, l.isDefault = true) →
    (layers.foldl writeVariantsStep st).defaultModelingVariant = B := by
  induction layers with
  | nil => rintro st _ ⟨l, hl, _⟩; cases hl
  | cons l rest ih =>
    intro st hname hdef
    rw [List.foldl_cons]
    by_cases hrest : ∃ x ∈ rest, x.isDefault = true
    · exact ih _ (fun x hx => hname x (List.mem_cons_of_mem _ hx)) hrest
    · have hl : l.isDefault = true := by
        obtain ⟨x, hx, hxd⟩ := hdef
        rcases List.mem_cons.mp hx with h | h
        · rwa [← h]
        · exact absurd ⟨x, h, hxd⟩ hrest
      have hrest' : ∀ x ∈ rest, x.isDefault = false := by
        intro x hx
        by_contra hc
        exact hrest ⟨x, hx, by simpa using hc⟩
      rw [foldl_variants_dmv_of_no_default rest _ hrest']
      have hn : l.name = B := hname l (List.mem_cons_self _ _) hl
      simp [writeVariantsStep, hl, hn]
      split <;> rfl

lemma foldl_variants_added_ne_nil (layers : List RenderLayer) :
    ∀ st : VariantState,
    ((∃ l ∈ layers, l.hasActivePaths = true) ∨ st.variantsAdded ≠ []) →
    (layers.foldl writeVariantsStep st).variantsAdded ≠ [] := by
  induction layers with
  | nil =>
    rintro st (⟨l, hl, _⟩ | h)
    · cases hl
    · exact h
  | cons l rest ih =>
    intro st h
    rw [List.foldl_cons]
    by_cases hl : l.hasActivePaths = true
    · refine ih _ (Or.inr ?_)
      simp [writeVariantsStep, hl]
    · refine ih _ ?_
      rcases h with ⟨x, hx, hxa⟩ | h
      · rcases List.mem_cons.mp hx with hh | hh
        · rw [← hh] at hl; exact absurd hxa hl
        · exact Or.inl ⟨x, hh, hxa⟩
      · refine Or.inr ?_
        have hl' : l.hasActivePaths = false := by simpa using hl
        simp [writeVariantsStep, hl']
        exact h

lemma writeVariants_sel (layers : List RenderLayer) (B : String)
    (hname : ∀ l ∈ layers, l.isDefault = true → l.name = B)
    (hdef : ∃ l ∈ layers, l.isDefault = true)
    (hactive : ∃ l ∈ layers, l.hasActivePaths = true) :
    (writeVariants layers).selection = some B := by
  unfold writeVariants
  have hadded := foldl_variants_added_ne_nil layers ⟨[], none, ""⟩ (Or.inl hactive)
  have hdmv := foldl_variants_dmv layers B ⟨[], none, ""⟩ hname hdef
  simp only [List.isEmpty_iff]
  rw [if_neg hadded]
  simp [hdmv]

/-- Claim C5: after `_WriteVariants` processes the render layers, the
selected variant of the modeling variant set is the one named after the
default render layer, for every processing order (in particular for any
permutation of the layer list), because the default selection is
applied once after all alternatives are added. -/
theorem variant_default_selection (layers : List RenderLayer) (B : String)
    (hname : ∀ l ∈ layers, l.isDefault = true → l.name = B)
    (hdef : ∃ l ∈ layers, l.isDefault = true)
    (hactive : ∃ l ∈ layers, l.hasActivePaths = true) :
    (writeVariants layers).selection = some B
    ∧ ∀ layers' : List RenderLayer, layers'.Perm layers →
        (writeVariants layers').selection = some B := by
  refine ⟨writeVariants_sel layers B hname hdef hactive, ?_⟩
  intro layers' hperm
  refine writeVariants_sel layers' B ?_ ?_ ?_
  · intro l hl; exact hname l (hperm.mem_iff.mp hl)
  · obtain ⟨l, hl, hld⟩ := hdef
    exact ⟨l, hperm.mem_iff.mpr hl, hld⟩
  · obtain ⟨l, hl, hla⟩ := hactive
    exact ⟨l, hperm.mem_iff.mpr hl, hla⟩

lemma chaserPosts_all_ok (o : Maya) (cs : List String)
    (h : ∀ c ∈ cs, o.chaserPostOk c = true) :
    chaserPosts o cs
      = (cs.map (fun c => Event.chaserPostExport c), cs.flatMap o.chaserExtraPaths, none) := by
  induction cs with
  | nil => rfl
  | cons c rest ih =>
    have hc : o.chaserPostOk c = true := h c (List.mem_cons_self _ _)
    rw [chaserPosts, hc, ih (fun x hx => h x (List.mem_cons_of_mem _ hx))]
    simp

/-- Claim C8: for a package export, `_FinishWriting` saves the primary
(temporary) layer before invoking packaging, packaging failure does not
change the successful result, all in-memory handles are released before
the temporary file is deleted, and the temporary file is absent from
the filesystem on completion whether or not packaging succeeded (the
oracle `packageOk` is arbitrary in this statement). -/
theorem packaging_failure_tolerated (o : Maya) (st : JobState) (files : List String)
    (hpkg : st.packageName ≠ "")
    (hch : ∀ c ∈ st.chasers, o.chaserPostOk c = true)
    (hperm : o.permissionToSave = true) :
    finishWriting o st files
      = ((if o.hasRootPrim ∧ 1 < o.renderLayerCount ∧ st.usdModelRootOverride = true
            then [Event.wroteVariants] else [])
          ++ st.writers.map (fun w => Event.writerPostExport w.usdPath)
          ++ st.chasers.map (fun c => Event.chaserPostExport c)
          ++ [Event.postCallback, Event.prunedEmpties,
              Event.savedLayer st.fileName,
              Event.createdPackage st.packageName o.packageOk,
              Event.releasedHandles,
              Event.deletedTmpFile st.fileName],
         (if o.packageOk then st.packageName :: st.fileName :: files
            else st.fileName :: files).filter (fun f => f ≠ st.fileName),
         true)
    ∧ st.fileName ∉ (finishWriting o st files).2.1 := by
  have hm : finishWriting o st files
      = ((if o.hasRootPrim ∧ 1 < o.renderLayerCount ∧ st.usdModelRootOverride = true
            then [Event.wroteVariants] else [])
          ++ st.writers.map (fun w => Event.writerPostExport w.usdPath)
          ++ st.chasers.map (fun c => Event.chaserPostExport c)
          ++ [Event.postCallback, Event.prunedEmpties,
              Event.savedLayer st.fileName,
              Event.createdPackage st.packageName o.packageOk,
              Event.releasedHandles,
              Event.deletedTmpFile st.fileName],
         (if o.packageOk then st.packageName :: st.fileName :: files
            else st.fileName :: files).filter (fun f => f ≠ st.fileName),
         true) := by
    rw [finishWriting, chaserPosts_all_ok o st.chasers hch]
    simp [hperm, hpkg]
  refine ⟨hm, ?_⟩
  rw [hm]
  intro hmem
  have := (List.mem_filter.mp hmem).2
  simp at this

lemma chaserFrames_all_ok (o : Maya) (t : Nat) (cs : List String)
    (h : ∀ c ∈ cs, o.chaserFrameOk c t = true) :
    chaserFrames o cs t = (chaserFrameEvents cs t, true) := by
  induction cs with
  | nil => rfl
  | cons c rest ih =>
    have hc : o.chaserFrameOk c t = true := h c (List.mem_cons_self _ _)
    rw [chaserFrames, hc, ih (fun x hx => h x (List.mem_cons_of_mem _ hx))]
    simp [chaserFrameEvents]

lemma chaserFrames_fails (o : Maya) (t : Nat) (cs₁ : List String) (c : String)
    (cs₂ : List String) (h1 : ∀ x ∈ cs₁, o.chaserFrameOk x t = true)
    (hc : o.chaserFrameOk c t = false) :
    chaserFrames o (cs₁ ++ c :: cs₂) t = (chaserFrameEvents (cs₁ ++ [c]) t, false) := by
  induction cs₁ with
  | nil => simp [chaserFrames, hc, chaserFrameEvents]
  | cons x rest ih =>
    have hx : o.chaserFrameOk x t = true := h1 x (List.mem_cons_self _ _)
    rw [List.cons_append, chaserFrames, hx,
      ih (fun y hy => h1 y (List.mem_cons_of_mem _ hy))]
    simp [chaserFrameEvents]

lemma writeFrame_all_ok (o : Maya) (st : JobState) (t : Nat)
    (h : ∀ c ∈ st.chasers, o.chaserFrameOk c t = true) :
    writeFrame o st t = (fullFrameEvents st t, true) := by
  rw [writeFrame, chaserFrames_all_ok o t st.chasers h]
  simp [fullFrameEvents, frameWriterEvents]

lemma writeFrame_fails (o : Maya) (st : JobState) (t : Nat) (cs₁ : List String)
    (c : String) (cs₂ : List String) (hsplit : st.chasers = cs₁ ++ c :: cs₂)
    (h1 : ∀ x ∈ cs₁, o.chaserFrameOk x t = true)
    (hc : o.chaserFrameOk c t = false) :
    writeFrame o st t
      = (frameWriterEvents st.writers t ++ chaserFrameEvents (cs₁ ++ [c]) t, false) := by
  rw [writeFrame, hsplit, chaserFrames_fails o t cs₁ c cs₂ h1 hc]
  simp [frameWriterEvents]

lemma frameLoop_clean (o : Maya) (st : JobState) (ts : List Nat) :
    ∀ k0 : Nat, (∀ t ∈ ts, ∀ c ∈ st.chasers, o.chaserFrameOk c t = true) →
    (∀ j, k0 < j → j ≤ k0 + ts.length → o.interrupt j = false) →
    frameLoop o st ts k0 = (cleanLoopEvents st ts k0, true) := by
  induction ts with
  | nil => intro k0 _ _; rfl
  | cons t rest ih =>
    intro k0 hok hint
    have hw := writeFrame_all_ok o st t (hok t (List.mem_cons_self _ _))
    have hi : o.interrupt (k0 + 1) = false :=
      hint (k0 + 1) (by omega) (by rw [List.length_cons]; omega)
    rw [frameLoop, hw]
    simp only [hi]
    rw [ih (k0 + 1) (fun x hx => hok x (List.mem_cons_of_mem _ hx))
      (fun j h1 h2 => hint j (by omega) (by rw [List.length_cons]; omega))]
    simp [cleanLoopEvents]

lemma frameLoop_interrupted (o : Maya) (st : JobState) (k : Nat)
    (hint : ∀ j, o.interrupt j = decide (k ≤ j)) (ts : List Nat) :
    ∀ k0 : Nat, k0 < k → k ≤ k0 + ts.length →
    (∀ t ∈ ts, ∀ c ∈ st.chasers, o.chaserFrameOk c t = true) →
    frameLoop o st ts k0 = (cleanLoopEvents st (ts.take (k - k0)) k0, true) := by
  induction ts with
  | nil => intro k0 h1 h2 _; simp at h2; omega
  | cons t rest ih =>
    intro k0 h1 h2 hok
    have hw := writeFrame_all_ok o st t (hok t (List.mem_cons_self _ _))
    rw [frameLoop, hw]
    simp only [hint (k0 + 1)]
    by_cases hkk : k ≤ k0 + 1
    · have hk1 : k = k0 + 1 := by omega
      have htake : k - k0 = 1 := by omega
      have hd : (decide (k ≤ k0 + 1)) = true := by simp [hkk]
      simp only [hd, if_true, htake, List.take_succ_cons, List.take_zero]
      simp [cleanLoopEvents]
    · have hd : (decide (k ≤ k0 + 1)) = false := by simp [hkk]
      simp only [hd, if_false, Bool.false_eq_true]
      rw [ih (k0 + 1) (by omega) (by rw [List.length_cons] at h2; omega)
        (fun x hx => hok x (List.mem_cons_of_mem _ hx))]
      have htake : k - k0 = (k - (k0 + 1)) + 1 := by omega
      rw [htake, List.take_succ_cons]
      simp [cleanLoopEvents]

lemma frameLoop_fails (o : Maya) (st : JobState) (t : Nat) (ts₂ : List Nat)
    (cs₁ : List String) (c : String) (cs₂ : List String)
    (hsplit : st.chasers = cs₁ ++ c :: cs₂)
    (hcs₁ : ∀ x ∈ cs₁, o.chaserFrameOk x t = true)
    (hc : o.chaserFrameOk c t = false) (ts₁ : List Nat) :
    ∀ k0 : Nat, (∀ t' ∈ ts₁, ∀ x ∈ st.chasers, o.chaserFrameOk x t' = true) →
    (∀ j, k0 < j → j ≤ k0 + ts₁.length → o.interrupt j = false) →
    frameLoop o st (ts₁ ++ t :: ts₂) k0
      = (cleanLoopEvents st ts₁ k0 ++ frameWriterEvents st.writers t
          ++ chaserFrameEvents (cs₁ ++ [c]) t, false) := by
  induction ts₁ with
  | nil =>
    intro k0 _ _
    have hw := writeFrame_fails o st t cs₁ c cs₂ hsplit hcs₁ hc
    rw [List.nil_append, frameLoop, hw]
    simp [cleanLoopEvents]
  | cons t' rest ih =>
    intro k0 hok hint
    have hw := writeFrame_all_ok o st t' (hok t' (List.mem_cons_self _ _))
    have hi : o.interrupt (k0 + 1) = false :=
      hint (k0 + 1) (by omega) (by rw [List.length_cons]; omega)
    rw [List.cons_append, frameLoop, hw]
    simp only [hi]
    rw [ih (k0 + 1) (fun x hx => hok x (List.mem_cons_of_mem _ hx))
      (fun j h1 h2 => hint j (by omega) (by rw [List.length_cons]; omega))]
    simp [cleanLoopEvents]

lemma mem_cleanLoopEvents (st : JobState) (w : TravNode) (hw : w ∈ st.writers)
    (hv : w.valid = true) (ts : List Nat) :
    ∀ k0 t, t ∈ ts → Event.writerFrameWrite w.usdPath t ∈ cleanLoopEvents st ts k0 := by
  induction ts with
  | nil => intro k0 t ht; cases ht
  | cons t' rest ih =>
    intro k0 t ht
    rw [cleanLoopEvents]
    rcases List.mem_cons.mp ht with h | h
    · subst h
      apply List.mem_append_left
      apply List.mem_append_left
      apply List.mem_append_left
      rw [frameWriterEvents, List.mem_filterMap]
      exact ⟨w, hw, by rw [hv]; rfl⟩
    · apply List.mem_append_right
      exact List.mem_cons_of_mem _ (ih (k0 + 1) t h)

lemma finishWriting_ok (o : Maya) (st : JobState) (files : List String)
    (hpost : ∀ c ∈ st.chasers, o.chaserPostOk c = true) :
    (finishWriting o st files).2.2 = true := by
  rw [finishWriting, chaserPosts_all_ok o st.chasers hpost]

/-- Claim C3: in each frame, writer samples for every writer with a
valid prim are written first, then the chaser per-frame hooks run in
order; when a chaser fails, the trace ends right after that hook — the
remaining chasers of the frame, the per-frame callback and all
remaining frames are absent, the finalization events are absent, the
job reports failure, and the samples of all earlier frames are still in
the trace (the in-progress layer). -/
theorem frame_chaser_failure_aborts (args : ExportArgs) (o : Maya) (fileName : String)
    (append : Bool) (ev₀ : List Event) (st : JobState) (ts₁ : List Nat) (t : Nat)
    (ts₂ : List Nat) (cs₁ : List String) (c : String) (cs₂ : List String)
    (hbegin : beginWriting args o fileName append = (ev₀, .ok st))
    (hts : args.timeSamples = ts₁ ++ t :: ts₂)
    (hclean : ∀ t' ∈ ts₁, ∀ x ∈ st.chasers, o.chaserFrameOk x t' = true)
    (hnoint : ∀ j, 0 < j → j ≤ ts₁.length → o.interrupt j = false)
    (hchsplit : st.chasers = cs₁ ++ c :: cs₂)
    (hcs₁ : ∀ x ∈ cs₁, o.chaserFrameOk x t = true)
    (hc : o.chaserFrameOk c t = false) :
    write args o fileName append
      = (ev₀ ++ (cleanLoopEvents st ts₁ 0 ++ frameWriterEvents st.writers t
          ++ chaserFrameEvents (cs₁ ++ [c]) t), false)
    ∧ (∀ t' ∈ ts₁, ∀ w ∈ st.writers, w.valid = true →
        Event.writerFrameWrite w.usdPath t' ∈ (write args o fileName append).1) := by
  have hloop := frameLoop_fails o st t ts₂ cs₁ c cs₂ hchsplit hcs₁ hc ts₁ 0
    hclean (fun j h1 h2 => hnoint j h1 (by omega))
  have hw : write args o fileName append
      = (ev₀ ++ (cleanLoopEvents st ts₁ 0 ++ frameWriterEvents st.writers t
          ++ chaserFrameEvents (cs₁ ++ [c]) t), false) := by
    rw [write, hbegin]
    simp only [hts, hloop]
  refine ⟨hw, ?_⟩
  intro t' ht' w hwm hv
  rw [hw]
  apply List.mem_append_right
  apply List.mem_append_left
  apply List.mem_append_left
  exact mem_cleanLoopEvents st w hwm hv ts₁ 0 t' ht'

/-- Claim C4: when cancellation is requested after the k-th of n frames
(1 ≤ k < n), exactly the first k frames are written — the trace
consists of k complete frame blocks with interrupt checks only at frame
boundaries, followed by the full finalization events — no writer or
chaser per-frame hook runs for the remaining n−k samples, and `Write`
returns success with `_FinishWriting` completing. -/
theorem cancellation_between_frames (args : ExportArgs) (o : Maya) (fileName : String)
    (append : Bool) (ev₀ : List Event) (st : JobState) (k : Nat)
    (hbegin : beginWriting args o fileName append = (ev₀, .ok st))
    (hk1 : 1 ≤ k) (hkn : k < args.timeSamples.length)
    (hint : ∀ j, o.interrupt j = decide (k ≤ j))
    (hclean : ∀ t ∈ args.timeSamples, ∀ x ∈ st.chasers, o.chaserFrameOk x t = true)
    (hpost : ∀ x ∈ st.chasers, o.chaserPostOk x = true) :
    write args o fileName append
      = (ev₀ ++ cleanLoopEvents st (args.timeSamples.take k) 0
          ++ (finishWriting o st o.initialFiles).1, true)
    ∧ (args.timeSamples.take k).length = k
    ∧ (finishWriting o st o.initialFiles).2.2 = true := by
  have hloop := frameLoop_interrupted o st k hint args.timeSamples 0
    (by omega) (by omega) hclean
  rw [Nat.sub_zero] at hloop
  have hfin := finishWriting_ok o st o.initialFiles hpost
  refine ⟨?_, ?_, hfin⟩
  · rw [write, hbegin]
    simp only [hloop, hfin]
  · rw [List.length_take]
    omega

lemma mem_chainPaths {names : List String} {p : PrimPath} :
    p ∈ chainPaths names ↔ ∃ i, i < names.length ∧ names.take (i + 1) = p := by
  simp [chainPaths]

lemma length_le_of_mem_chainPaths {names : List String} {p : PrimPath}
    (h : p ∈ chainPaths names) : p.length ≤ names.length := by
  obtain ⟨i, hi, rfl⟩ := mem_chainPaths.mp h
  simp [List.length_take]

lemma ne_nil_of_mem_chainPaths {names : List String} {p : PrimPath}
    (h : p ∈ chainPaths names) : p ≠ [] := by
  obtain ⟨i, hi, rfl⟩ := mem_chainPaths.mp h
  have : (names.take (i + 1)).length = i + 1 := by
    rw [List.length_take]; omega
  intro hc
  rw [hc] at this
  simp at this

lemma self_mem_chainPaths {names : List String} (h : names ≠ []) :
    names ∈ chainPaths names := by
  have hpos : 0 < names.length := List.length_pos.mpr h
  refine mem_chainPaths.mpr ⟨names.length - 1, by omega, ?_⟩
  have : names.length - 1 + 1 = names.length := by omega
  rw [this, List.take_length]

lemma chainPaths_snoc (ns : List String) (n : String) :
    chainPaths (ns ++ [n]) = chainPaths ns ++ [ns ++ [n]] := by
  rw [chainPaths, chainPaths, List.length_append, List.length_singleton,
    List.range_succ, List.map_append]
  congr 1
  · apply List.map_congr_left
    intro i hi
    rw [List.mem_range] at hi
    exact List.take_append_of_le_length (by omega)
  · simp

lemma chainStage_snoc (ns : List String) (n : String) :
    chainStage (ns ++ [n]) = chainStage ns ++ [xformPrim (ns ++ [n])] := by
  simp [chainStage, chainPaths_snoc]

lemma chainStage_length (names : List String) :
    (chainStage names).length = names.length := by
  simp [chainStage, chainPaths]

lemma find?_path_map (l : List PrimPath) (p : PrimPath) :
    ((l.map xformPrim).find? (fun pi => pi.path == p))
      = (l.find? (fun q => q == p)).map xformPrim := by
  induction l with
  | nil => rfl
  | cons q rest ih =>
    by_cases h : (q == p) = true
    · simp [List.find?_cons, xformPrim, h]
    · simp [List.find?_cons, xformPrim, h, ih]

lemma find?_self_of_mem {l : List PrimPath} {p : PrimPath} (h : p ∈ l) :
    l.find? (fun q => q == p) = some p := by
  induction l with
  | nil => cases h
  | cons a rest ih =>
    by_cases ha : a = p
    · subst ha
      simp [List.find?_cons]
    · rcases List.mem_cons.mp h with hh | hh
      · exact absurd hh.symm ha
      · have hb : (a == p) = false := by simpa using ha
        simp [List.find?_cons, hb, ih hh]

lemma hasChildIn_chainStage_self (names : List String) :
    hasChildIn (chainStage names) names = false := by
  rw [hasChildIn, List.any_eq_false]
  intro pi hpi
  obtain ⟨q, hq, rfl⟩ := List.mem_map.mp hpi
  simp only [xformPrim, Bool.and_eq_true, Bool.not_eq_true', beq_iff_eq, not_and]
  intro hqe heq
  have h1 := length_le_of_mem_chainPaths hq
  have h2 : q ≠ [] := by
    intro hc; rw [hc] at hqe; simp at hqe
  have h3 : 0 < q.length := List.length_pos.mpr h2
  have h4 : q.dropLast.length = q.length - 1 := by simp
  rw [heq] at h4
  omega

lemma hasChildIn_chainStage_inner (names : List String) (i : Nat)
    (hlt : i + 1 < names.length) :
    hasChildIn (chainStage names) (names.take (i + 1)) = true := by
  rw [hasChildIn, List.any_eq_true]
  refine ⟨xformPrim (names.take (i + 2)), ?_, ?_⟩
  · rw [chainStage, List.mem_map]
    exact ⟨names.take (i + 2), mem_chainPaths.mpr ⟨i + 1, by omega, rfl⟩, rfl⟩
  · simp only [xformPrim, Bool.and_eq_true, Bool.not_eq_true', beq_iff_eq]
    constructor
    · have hl2 : (names.take (i + 2)).length = i + 2 := by rw [List.length_take]; omega
      have hne2 : names.take (i + 2) ≠ [] := by
        intro hc; rw [hc] at hl2; simp at hl2
      simp [hne2]
    · rw [List.dropLast_eq_take, List.length_take, List.take_take]
      have h1 : min (i + 2) names.length = i + 2 := by omega
      rw [h1]
      have h2 : min (i + 2 - 1) (i + 2) = i + 1 := by omega
      rw [h2]

lemma isEmptyPrim_chainStage_self (names : List String) (h : names ≠ []) :
    isEmptyPrim (chainStage names) names = true := by
  rw [isEmptyPrim, chainStage, find?_path_map, find?_self_of_mem (self_mem_chainPaths h)]
  simp only [Option.map_some']
  rw [← chainStage]
  simp [xformPrim, hasChildIn_chainStage_self]

lemma isEmptyPrim_chainStage_inner (names : List String) (p : PrimPath)
    (hp : p ∈ chainPaths names) (hne : p ≠ names) :
    isEmptyPrim (chainStage names) p = false := by
  obtain ⟨i, hi, rfl⟩ := mem_chainPaths.mp hp
  have hlt : i + 1 < names.length := by
    by_contra hc
    push_neg at hc
    exact hne (List.take_of_length_le (by omega))
  rw [isEmptyPrim, chainStage, find?_path_map,
    find?_self_of_mem (mem_chainPaths.mpr ⟨i, hi, rfl⟩)]
  simp only [Option.map_some']
  rw [← chainStage]
  simp [xformPrim, hasChildIn_chainStage_inner names i hlt]

lemma removePrims_chain_snoc (ns : List String) (n : String) :
    removePrims (chainStage (ns ++ [n])) [ns ++ [n]] = chainStage ns := by
  rw [chainStage_snoc, removePrims, List.filter_append]
  have h1 : (chainStage ns).filter
      (fun pi => !([ns ++ [n]].any (fun p => p.isPrefixOf pi.path))) = chainStage ns := by
    apply List.filter_eq_self.mpr
    intro pi hpi
    obtain ⟨q, hq, rfl⟩ := List.mem_map.mp hpi
    simp only [List.any_cons, List.any_nil, Bool.or_false, Bool.not_eq_true',
      xformPrim]
    rw [← Bool.not_eq_true, List.isPrefixOf_iff_prefix]
    intro hpfx
    have ha := hpfx.length_le
    have hb := length_le_of_mem_chainPaths hq
    rw [List.length_append, List.length_singleton] at ha
    omega
  have h2 : ([xformPrim (ns ++ [n])].filter
      (fun pi => !([ns ++ [n]].any (fun p => p.isPrefixOf pi.path)))) = [] := by
    simp [xformPrim, List.isPrefixOf_iff_prefix]
  rw [h1, h2, List.append_nil]

lemma pruneLoop_nil_toRemove (dp : PrimPath) (stage : Stage) (f : Nat) (hf : 0 < f) :
    pruneLoop dp f stage [] = stage := by
  obtain ⟨g, rfl⟩ : ∃ g, f = g + 1 := ⟨f - 1, by omega⟩
  rw [pruneLoop]
  simp

lemma initialScan_chain (names : List String) (dp : PrimPath) (h : names ≠ []) :
    ((chainStage names).map (fun pi => pi.path)).filter
        (fun p => decide (dp ≠ p) && isEmptyPrim (chainStage names) p)
      = if dp = names then [] else [names] := by
  have hmap : (chainStage names).map (fun pi => pi.path) = chainPaths names := by
    simp [chainStage, List.map_map, Function.comp_def, xformPrim]
  rw [hmap]
  obtain ⟨ns, n, hsnoc⟩ : ∃ ns n, names = ns ++ [n] :=
    ⟨names.dropLast, names.getLast h, (List.dropLast_append_getLast h).symm⟩
  rw [hsnoc, chainPaths_snoc, List.filter_append]
  have h1 : (chainPaths ns).filter
      (fun p => decide (dp ≠ p) && isEmptyPrim (chainStage (ns ++ [n])) p) = [] := by
    apply List.filter_eq_nil_iff.mpr
    intro p hp
    have hmem : p ∈ chainPaths (ns ++ [n]) := by
      rw [chainPaths_snoc]
      exact List.mem_append_left _ hp
    have hne : p ≠ ns ++ [n] := by
      have ha := length_le_of_mem_chainPaths hp
      intro hc
      rw [hc, List.length_append, List.length_singleton] at ha
      omega
    rw [isEmptyPrim_chainStage_inner (ns ++ [n]) p hmem hne]
    simp
  rw [h1, List.nil_append, List.filter_singleton]
  have hself : isEmptyPrim (chainStage (ns ++ [n])) (ns ++ [n]) = true :=
    isEmptyPrim_chainStage_self (ns ++ [n]) (by simp)
  by_cases hdp : dp = ns ++ [n]
  · simp [hdp]
  · simp [hdp, hself]

lemma pruneLoop_chain (dp : PrimPath) (names₂ : List String) :
    names₂ ≠ [] → ∀ (names₁ : List String) (fuel : Nat),
    names₂.length + 1 ≤ fuel →
    ((names₁ = [] ∧ ∀ q ∈ chainPaths names₂, dp ≠ q) ∨ dp = names₁) →
    pruneLoop dp fuel (chainStage (names₁ ++ names₂)) [names₁ ++ names₂]
      = chainStage names₁ := by
  induction names₂ using List.reverseRecOn with
  | nil => intro h; exact absurd rfl h
  | append_singleton ns₂ n ih =>
    intro _ names₁ fuel hfuel hcase
    obtain ⟨fuel', rfl⟩ : ∃ f, fuel = f + 1 := ⟨fuel - 1, by omega⟩
    rw [pruneLoop]
    simp only [List.isEmpty_cons, Bool.false_eq_true, if_false]
    rw [← List.append_assoc, removePrims_chain_snoc (names₁ ++ ns₂) n,
      List.map_cons, List.map_nil, List.dropLast_concat, List.filter_singleton]
    by_cases hns : ns₂ = []
    · subst hns
      rw [List.append_nil]
      have hpred : (decide (dp ≠ names₁) && isEmptyPrim (chainStage names₁) names₁)
          = false := by
        rcases hcase with ⟨hn1, _⟩ | hdp
        · subst hn1
          have : isEmptyPrim (chainStage ([] : List String)) [] = false := rfl
          rw [this, Bool.and_false]
        · rw [hdp]
          simp
      rw [hpred, Bool.cond_false]
      refine pruneLoop_nil_toRemove dp (chainStage names₁) fuel' ?_
      have hf2 := hfuel
      simp at hf2
      omega
    · have hne12 : names₁ ++ ns₂ ≠ [] := by
        intro hc
        exact hns (List.append_eq_nil.mp hc).2
      have hdpne : dp ≠ names₁ ++ ns₂ := by
        rcases hcase with ⟨hn1, hq⟩ | hdp
        · subst hn1
          rw [List.nil_append]
          apply hq
          rw [chainPaths_snoc]
          apply List.mem_append_left
          exact self_mem_chainPaths hns
        · rw [hdp]
          intro hc
          have : names₁.length = names₁.length + ns₂.length := by
            conv_lhs => rw [hc]
            rw [List.length_append]
          have hpos : 0 < ns₂.length := List.length_pos.mpr hns
          omega
      have hpred : (decide (dp ≠ names₁ ++ ns₂)
          && isEmptyPrim (chainStage (names₁ ++ ns₂)) (names₁ ++ ns₂)) = true := by
        rw [isEmptyPrim_chainStage_self _ hne12]
        simp [hdpne]
      rw [hpred, Bool.cond_true]
      apply ih hns names₁ fuel' (by rw [List.length_append, List.length_singleton] at hfuel; omega)
      rcases hcase with ⟨hn1, hq⟩ | hdp
      · refine Or.inl ⟨hn1, fun q hq2 => ?_⟩
        apply hq
        rw [chainPaths_snoc]
        exact List.mem_append_left _ hq2
      · exact Or.inr hdp

/-- Claim C6: pruning a chain of nested empty container prims reaches a
fixed point — with empty transforms kept, nothing is removed; with them
not kept and the default prim outside the chain, all N prims are
removed (each removal re-triggers the check on the parent); when the
j-th chain member is the default prim, pruning removes exactly the
prims below it and the default prim itself is never removed. -/
theorem prune_chain_fixed_point (names : List String) (dp : PrimPath) (hne : names ≠ []) :
    pruneEmpties true dp (chainStage names) = chainStage names
    ∧ ((∀ q ∈ chainPaths names, dp ≠ q) → pruneEmpties false dp (chainStage names) = [])
    ∧ (∀ j, 1 ≤ j → j ≤ names.length → dp = names.take j →
        pruneEmpties false dp (chainStage names) = chainStage (names.take j)) := by
  refine ⟨by rw [pruneEmpties]; simp, ?_, ?_⟩
  · intro hdp
    have hdpn : dp ≠ names := hdp names (self_mem_chainPaths hne)
    simp only [pruneEmpties, Bool.false_eq_true, if_false]
    rw [initialScan_chain names dp hne, if_neg hdpn, chainStage_length]
    have hloop := pruneLoop_chain dp names hne [] (names.length + 1) (by omega)
      (Or.inl ⟨rfl, hdp⟩)
    rw [List.nil_append] at hloop
    rw [hloop]
    rfl
  · intro j hj1 hjlen hdp
    by_cases hjN : j = names.length
    · subst hjN
      have hdn : dp = names := by rw [hdp, List.take_length]
      simp only [pruneEmpties, Bool.false_eq_true, if_false]
      rw [initialScan_chain names dp hne, if_pos hdn, chainStage_length,
        pruneLoop_nil_toRemove dp (chainStage names) (names.length + 1) (by omega),
        List.take_length]
    · have hjlt : j < names.length := by omega
      have hdpn : dp ≠ names := by
        rw [hdp]
        intro hc
        have hl : (names.take j).length = names.length := by rw [hc]
        rw [List.length_take] at hl
        omega
      simp only [pruneEmpties, Bool.false_eq_true, if_false]
      rw [initialScan_chain names dp hne, if_neg hdpn, chainStage_length]
      have hd : names.drop j ≠ [] := by
        intro hc
        have hl := congrArg List.length hc
        rw [List.length_drop] at hl
        simp at hl
        omega
      have hloop := pruneLoop_chain dp (names.drop j) hd (names.take j)
        (names.length + 1) (by rw [List.length_drop]; omega) (Or.inr hdp)
      rw [List.take_append_drop] at hloop
      rw [hloop]

/-- Witness for C1 at a concrete overlapping configuration. -/
theorem overlappingRoots_abort_witness :
    write { tArgs with dagPaths := [["A"], ["A", "B"]] }
      { tMaya with isAncestorDescendent := fun p q => p.isPrefixOf q } "f.usd" false
      = ([], false) :=
  (overlappingRoots_abort _ _ "f.usd" false ⟨0, by decide⟩ ⟨1, by decide⟩ (by decide)
    (by decide)).2

/-- Witness for C2 at concrete clash-map contents. -/
theorem nameClash_policy_witness :
    checkNameClashes false true (fun p => p ++ ["Shape"]) [] "/A" ["A"]
      = .ok []
    ∧ checkNameClashes true false (fun p => p ++ ["Shape"])
        [("/A", ["X"])] "/A" ["Y"] = .error (["X"], ["Y"]) :=
  ⟨nameClash_policy.1 true (fun p => p ++ ["Shape"]) [] "/A" ["A"],
   (nameClash_policy.2.1 false (fun p => p ++ ["Shape"]) [("/A", ["X"])] "/A" ["Y"]
     ("/A", ["X"]) (by decide)).2 (by decide)⟩

/-- Witness for C3: the chaser fails at the second of three frames. -/
theorem frame_chaser_failure_aborts_witness :
    write tArgs oC3' "f.usd" false
      = ([Event.openedLayer, Event.chaserExportDefault "ch"]
          ++ (cleanLoopEvents stC3' [10] 0 ++ frameWriterEvents stC3'.writers 20
            ++ chaserFrameEvents ([] ++ ["ch"]) 20), false) :=
  (frame_chaser_failure_aborts tArgs oC3' "f.usd" false
    [Event.openedLayer, Event.chaserExportDefault "ch"] stC3' [10] 20 [30] [] "ch" []
    (by decide) (by decide) (by decide)
    (by intro j h1 h2; have hj : j = 1 := by simp at h2; omega
        subst hj; rfl)
    rfl (by decide) (by decide)).1

/-- Witness for C4: cancellation after the second of three frames. -/
theorem cancellation_between_frames_witness :
    write tArgs oC4' "f.usd" false
      = ([Event.openedLayer, Event.wrotePrimDefault "/A", Event.wrotePrimDefault "/A/B",
          Event.chaserExportDefault "ch"]
          ++ cleanLoopEvents stC4' (tArgs.timeSamples.take 2) 0
          ++ (finishWriting oC4' stC4' oC4'.initialFiles).1, true) :=
  (cancellation_between_frames tArgs oC4' "f.usd" false
    [Event.openedLayer, Event.wrotePrimDefault "/A", Event.wrotePrimDefault "/A/B",
     Event.chaserExportDefault "ch"] stC4' 2
    (by decide) (by decide) (by decide) (fun j => rfl) (by decide) (by decide)).1

/-- Witness for C5 at three concrete render layers. -/
theorem variant_default_selection_witness :
    (writeVariants [⟨"A", false, true⟩, ⟨"B", true, true⟩, ⟨"C", false, true⟩]).selection
      = some "B" :=
  (variant_default_selection [⟨"A", false, true⟩, ⟨"B", true, true⟩, ⟨"C", false, true⟩]
    "B" (by decide) (by decide) (by decide)).1

/-- Witness for C6 on a three-deep chain. -/
theorem prune_chain_fixed_point_witness :
    pruneEmpties false ["z"] (chainStage ["a", "b", "c"]) = [] :=
  (prune_chain_fixed_point ["a", "b", "c"] ["z"] (by decide)).2.1 (by decide)

/-- Witness for C7 on a destination without extension under the ARKit profile. -/
theorem extension_dispatch_witness :
    resolveExtension .appleArKit tMaya "out" = ("usdz", "out.usdz") :=
  (extension_dispatch tMaya "out" (by decide) (by decide)).1 .appleArKit

/-- Witness for C8 at a concrete package export. -/
theorem packaging_failure_tolerated_witness :
    (⟨"tmp-1.usdc", "out.usdz", "sceneRoot", false, [], ["ch"], [], []⟩ : JobState).fileName
      ∉ (finishWriting tMaya ⟨"tmp-1.usdc", "out.usdz", "sceneRoot", false, [], ["ch"], [], []⟩ []).2.1 :=
  (packaging_failure_tolerated tMaya
    ⟨"tmp-1.usdc", "out.usdz", "sceneRoot", false, [], ["ch"], [], []⟩ []
    (by decide) (by decide) (by decide)).2

/-- Witness for C9 on an export-roots list with interleaved empties. -/
theorem exportRoots_empty_entries_witness :
    getExportDefaultPrimCandidates
      { tArgs with exportRoots := ["", "root1", "", "root2"] } tMaya
      = ["root1", "root2"] :=
  (exportRoots_empty_entries { tArgs with exportRoots := ["", "root1", "", "root2"] }
    tMaya (by decide)).1 (by decide)

/-- Witness for C10 at a concrete modeling-variant configuration. -/
theorem modelingVariant_rootMap_abort_witness :
    write { tArgs with renderLayerMode := .modelingVariant, rootMapFunctionNull := false }
      { tMaya with renderLayerCount := 2 } "f.usd" false = ([], false) :=
  (modelingVariant_rootMap_abort
    { tArgs with renderLayerMode := .modelingVariant, rootMapFunctionNull := false }
    { tMaya with renderLayerCount := 2 } "f.usd" false "f.usd" ""
    (by decide) (by decide) rfl (by decide) rfl).2

end WriteJob
